import Mathlib

/-!
Shallow embedding of the retry helper `withRetry` from `src/index.js`
(the error-handler utilities of the repository), together with proofs of
the specified properties of its retry/backoff behaviour.

The JavaScript source being modelled:

```
export async function withRetry(operation, maxRetries = 3, delay = 1000) {
  let lastError;
  for (let attempt = 1; attempt <= maxRetries; attempt++) {
    try {
      return await operation();
    } catch (error) {
      lastError = error;
      // Don't retry if the error is not retryable
      if (!error.$retryable && attempt < maxRetries) {
        break;
      }
      if (attempt < maxRetries) {
        console.warn(...);
        await new Promise((resolve) => setTimeout(resolve, delay));
        delay *= 2; // Exponential backoff
      }
    }
  }
  throw lastError;
}
```

Modelling decisions:
* An operation is a function from the attempt number (1-based) to the
  outcome of that invocation: success with a value, or failure with a
  thrown error object.
* A JS error object is modelled by `JSError`: name, message, metadata and
  the `$retryable` property.  The `$retryable` property is an arbitrary
  JS value (`JSValue`), read by JS truthiness (`truthy`), exactly as the
  source's `!error.$retryable` does; an absent property reads as
  `undefined`.
* The observable behaviour of one call is a `RunResult`: the returned
  value or thrown value, the number of invocations of the operation, and
  the list of delays slept (in order; the delay recorded at position `j`
  is the sleep performed before attempt `j + 2`).
* `maxRetries` is an `Int`, since the JS caller may pass zero or a
  negative number; `delay` is a `Nat`.
* A JS `throw` of the uninitialized `lastError` throws `undefined`, so a
  thrown value (`Thrown`) is either `undefined` or an error object.
-/

/-- A JavaScript value, as far as the truthiness test `!error.$retryable`
can distinguish values.  `undef` also stands for an absent property. -/
inductive JSValue where
  | undef
  | null
  | bool (b : Bool)
  | num (n : Int)
  | str (s : String)
  | obj (id : Nat)
deriving DecidableEq

/-- JavaScript truthiness: `undefined`, `null`, `false`, `0` and `""` are
falsy, everything else is truthy (numbers here are integral, so `NaN` is
out of scope). -/
def truthy : JSValue → Bool
  | JSValue.undef => false
  | JSValue.null => false
  | JSValue.bool b => b
  | JSValue.num n => decide (n ≠ 0)
  | JSValue.str s => decide (s ≠ "")
  | JSValue.obj _ => true

/-- A JS error object as thrown by an operation: its kind (`name`), its
`message`, its metadata, and its `$retryable` property (`JSValue.undef`
when the property is absent). -/
structure JSError where
  name : String
  message : String
  metadata : JSValue
  retryable : JSValue
deriving DecidableEq

/-- The outcome of one invocation of the caller-supplied operation. -/
inductive Outcome (α : Type) where
  | ok (v : α)
  | err (e : JSError)

/-- A value thrown by `withRetry`: either the JS `undefined` (from the
uninitialized `lastError`) or an error object produced by the operation. -/
inductive Thrown where
  | undef
  | err (e : JSError)
deriving DecidableEq

/-- The observable behaviour of one `withRetry` call: the result
(returned value or thrown value), how many times the operation was
invoked, and the delays slept between attempts, in order. -/
structure RunResult (α : Type) where
  result : Except Thrown α
  invocations : Nat
  delays : List Nat

/-- The `for` loop of `withRetry`, one constructor-recursive step per
iteration.  The fuel argument maintains the invariant
`fuel = maxRetries - attempt + 1` (clamped at 0), so the loop guard
`attempt <= maxRetries` is `1 <= fuel` and the source's test
`attempt < maxRetries` is `2 <= fuel`, i.e. `1 <= r` below.  The three
branches of the `err` case are, in order: the `break` (followed by
`throw lastError`), the sleep-then-retry branch (`delay` is slept and
then doubled), and the fall-through on the last iteration (no sleep, no
doubling; the next guard check fails and `lastError` is thrown, here via
the fuel-0 case). -/
def withRetryGo {α : Type} (operation : Nat → Outcome α) (attempt : Nat)
    (delay : Nat) (lastError : Option JSError) : Nat → RunResult α
  | 0 =>
      { result := Except.error (match lastError with
          | some e => Thrown.err e
          | none => Thrown.undef),
        invocations := 0, delays := [] }
  | r + 1 =>
      match operation attempt with
      | Outcome.ok v => { result := Except.ok v, invocations := 1, delays := [] }
      | Outcome.err e =>
          if truthy e.retryable = false ∧ 1 ≤ r then
            { result := Except.error (Thrown.err e), invocations := 1, delays := [] }
          else if 1 ≤ r then
            let rest := withRetryGo operation (attempt + 1) (delay * 2) (some e) r
            { result := rest.result, invocations := rest.invocations + 1,
              delays := delay :: rest.delays }
          else
            let rest := withRetryGo operation (attempt + 1) delay (some e) r
            { result := rest.result, invocations := rest.invocations + 1,
              delays := rest.delays }

/-- `withRetry(operation, maxRetries, delay)` from `src/index.js`.
The loop starts at `attempt = 1` with `lastError` uninitialized, so with
fuel `maxRetries.toNat` (zero iterations when `maxRetries <= 0`). -/
def withRetry {α : Type} (operation : Nat → Outcome α) (maxRetries : Int)
    (delay : Nat) : RunResult α :=
  withRetryGo operation 1 delay none maxRetries.toNat

/-- Two invocation outcomes that the retry decision cannot distinguish:
both successes (any values), or both failures whose `$retryable`
properties have the same truthiness. -/
def sameDecision {α : Type} : Outcome α → Outcome α → Prop
  | Outcome.ok _, Outcome.ok _ => True
  | Outcome.err e₁, Outcome.err e₂ => truthy e₁.retryable = truthy e₂.retryable
  | _, _ => False

/-- With at least one loop iteration left, the behaviour does not depend
on the current value of `lastError`: every branch that can reach the
fuel-0 case first overwrites it. -/
theorem withRetryGo_lastError_irrel {α : Type} (operation : Nat → Outcome α)
    (attempt delay : Nat) (le₁ le₂ : Option JSError) (r : Nat) (h : 1 ≤ r) :
    withRetryGo operation attempt delay le₁ r =
    withRetryGo operation attempt delay le₂ r := by
  cases r with
  | zero => omega
  | succ r => rfl

/-- Behaviour of the final loop iteration (fuel 1, i.e.
`attempt = maxRetries`): one invocation, no sleep, and the outcome of
that invocation decides the call. -/
theorem withRetryGo_one {α : Type} (operation : Nat → Outcome α)
    (attempt delay : Nat) (le : Option JSError) :
    withRetryGo operation attempt delay le 1 =
      match operation attempt with
      | Outcome.ok v =>
          { result := Except.ok v, invocations := 1, delays := [] }
      | Outcome.err e =>
          { result := Except.error (Thrown.err e), invocations := 1, delays := [] } := by
  cases hop : operation attempt <;> simp [withRetryGo, hop]

/-- The loop performs at most `fuel` invocations. -/
theorem withRetryGo_invocations_le {α : Type} (operation : Nat → Outcome α) :
    ∀ (r attempt delay : Nat) (le : Option JSError),
      (withRetryGo operation attempt delay le r).invocations ≤ r := by
  intro r
  induction r with
  | zero => intro attempt delay le; simp [withRetryGo]
  | succ r ih =>
      intro attempt delay le
      cases hop : operation attempt with
      | ok v => simp [withRetryGo, hop]
      | err e =>
          cases htr : truthy e.retryable with
          | false =>
              by_cases h2 : 1 ≤ r
              · simp [withRetryGo, hop, htr, h2]
              · have hr0 : r = 0 := by omega
                subst hr0
                simp [withRetryGo, hop, htr]
          | true =>
              by_cases h2 : 1 ≤ r
              · have := ih (attempt + 1) (delay * 2) (some e)
                simp [withRetryGo, hop, htr, h2]
                omega
              · have hr0 : r = 0 := by omega
                subst hr0
                simp [withRetryGo, hop, htr]

/-- With at least one loop iteration, the operation is invoked at least
once. -/
theorem withRetryGo_invocations_pos {α : Type} (operation : Nat → Outcome α)
    (attempt delay : Nat) (le : Option JSError) (r : Nat) (h : 1 ≤ r) :
    1 ≤ (withRetryGo operation attempt delay le r).invocations := by
  cases r with
  | zero => omega
  | succ r =>
      cases hop : operation attempt with
      | ok v => simp [withRetryGo, hop]
      | err e =>
          cases htr : truthy e.retryable <;>
            by_cases h2 : 1 ≤ r <;>
            simp [withRetryGo, hop, htr, h2]

/-- Prepending the current delay to a doubled geometric tail gives the
geometric sequence one step longer. -/
theorem geom_cons (d j : Nat) :
    d :: (List.range j).map (fun i => d * 2 * 2 ^ i) =
    (List.range (j + 1)).map (fun i => d * 2 ^ i) := by
  rw [List.range_succ_eq_map, List.map_cons, List.map_map]
  congr 1
  · simp
  · congr 1
    funext i
    simp [Function.comp, pow_succ]
    ring

/-- The slept delays always form the pure geometric sequence
`delay * 2 ^ 0, delay * 2 ^ 1, ...` (no jitter, no cap). -/
theorem withRetryGo_delays_geom {α : Type} (operation : Nat → Outcome α) :
    ∀ (r attempt delay : Nat) (le : Option JSError),
      (withRetryGo operation attempt delay le r).delays =
        (List.range (withRetryGo operation attempt delay le r).delays.length).map
          (fun i => delay * 2 ^ i) := by
  intro r
  induction r with
  | zero => intro attempt delay le; simp [withRetryGo]
  | succ r ih =>
      intro attempt delay le
      cases hop : operation attempt with
      | ok v => simp [withRetryGo, hop]
      | err e =>
          cases htr : truthy e.retryable with
          | false =>
              by_cases h2 : 1 ≤ r
              · simp [withRetryGo, hop, htr, h2]
              · have hr0 : r = 0 := by omega
                subst hr0
                simp [withRetryGo, hop, htr]
          | true =>
              have h1 : ¬(truthy e.retryable = false ∧ 1 ≤ r) := by simp [htr]
              by_cases h2 : 1 ≤ r
              · simp only [withRetryGo, hop, if_neg h1, if_pos h2, List.length_cons]
                rw [← geom_cons]
                exact congrArg (List.cons delay) (ih (attempt + 1) (delay * 2) (some e))
              · have hr0 : r = 0 := by omega
                subst hr0
                simp [withRetryGo, hop, htr]

/-- Each execution sleeps exactly one delay fewer than it performs
invocations (in particular no delay before the first attempt and none
after the last one), except the degenerate zero-iteration run. -/
theorem withRetryGo_delay_count {α : Type} (operation : Nat → Outcome α) :
    ∀ (r attempt delay : Nat) (le : Option JSError),
      (withRetryGo operation attempt delay le r).invocations =
        (withRetryGo operation attempt delay le r).delays.length + 1 ∨
      ((withRetryGo operation attempt delay le r).invocations = 0 ∧
       (withRetryGo operation attempt delay le r).delays = []) := by
  intro r
  induction r with
  | zero => intro attempt delay le; right; simp [withRetryGo]
  | succ r ih =>
      intro attempt delay le
      cases hop : operation attempt with
      | ok v => left; simp [withRetryGo, hop]
      | err e =>
          cases htr : truthy e.retryable with
          | false =>
              by_cases h2 : 1 ≤ r
              · left; simp [withRetryGo, hop, htr, h2]
              · have hr0 : r = 0 := by omega
                subst hr0
                left; simp [withRetryGo, hop, htr]
          | true =>
              by_cases h2 : 1 ≤ r
              · left
                have hpos := withRetryGo_invocations_pos operation (attempt + 1)
                  (delay * 2) (some e) r h2
                have hcount := ih (attempt + 1) (delay * 2) (some e)
                simp [withRetryGo, hop, htr, h2]
                omega
              · have hr0 : r = 0 := by omega
                subst hr0
                left; simp [withRetryGo, hop, htr]

/-- Skipping `j` leading failures whose `$retryable` property is truthy:
the run performs those `j` invocations and the matching geometric delays,
then continues at attempt `attempt + j` with the delay doubled `j` times
and the fuel down by `j`. -/
theorem withRetryGo_skip {α : Type} (operation : Nat → Outcome α) :
    ∀ (j r attempt delay : Nat), j ≤ r →
      (∀ i, i < j → ∃ e, operation (attempt + i) = Outcome.err e ∧
        truthy e.retryable = true) →
      withRetryGo operation attempt delay none (r + 1) =
        { result := (withRetryGo operation (attempt + j) (delay * 2 ^ j) none
              (r + 1 - j)).result,
          invocations := (withRetryGo operation (attempt + j) (delay * 2 ^ j) none
              (r + 1 - j)).invocations + j,
          delays := (List.range j).map (fun i => delay * 2 ^ i) ++
            (withRetryGo operation (attempt + j) (delay * 2 ^ j) none
              (r + 1 - j)).delays } := by
  intro j
  induction j with
  | zero =>
      intro r attempt delay hj hfail
      simp
  | succ j ih =>
      intro r attempt delay hj hfail
      obtain ⟨e, hop, htr⟩ := hfail 0 (by omega)
      rw [Nat.add_zero] at hop
      have hr : 1 ≤ r := by omega
      have h1 : ¬(truthy e.retryable = false ∧ 1 ≤ r) := by simp [htr]
      simp only [withRetryGo, hop, if_neg h1, if_pos hr]
      rw [withRetryGo_lastError_irrel operation (attempt + 1) (delay * 2)
        (some e) none r hr]
      obtain ⟨r', rfl⟩ : ∃ r', r = r' + 1 := ⟨r - 1, by omega⟩
      rw [ih r' (attempt + 1) (delay * 2) (by omega)
        (fun i hi => by
          obtain ⟨ei, hopi, htri⟩ := hfail (i + 1) (by omega)
          exact ⟨ei, by rw [← hopi]; ring_nf, htri⟩)]
      have ha : attempt + 1 + j = attempt + (j + 1) := by omega
      have hd : delay * 2 * 2 ^ j = delay * 2 ^ (j + 1) := by ring
      have hf : r' + 1 - j = r' + 1 + 1 - (j + 1) := by omega
      rw [ha, hd, hf]
      simp only [RunResult.mk.injEq]
      refine ⟨trivial, by omega, ?_⟩
      rw [← geom_cons, List.cons_append]

/-- Whenever the loop (entered with positive fuel) throws, the thrown
value is the error object returned by its final invocation of the
operation, i.e. the invocation numbered `attempt + invocations - 1`. -/
theorem withRetryGo_error_src {α : Type} (operation : Nat → Outcome α) :
    ∀ (r attempt delay : Nat) (le : Option JSError) (t : Thrown), 1 ≤ r →
      (withRetryGo operation attempt delay le r).result = Except.error t →
      ∃ e, t = Thrown.err e ∧
        operation (attempt + (withRetryGo operation attempt delay le r).invocations - 1) =
          Outcome.err e := by
  intro r
  induction r with
  | zero => intro attempt delay le t h; omega
  | succ r ih =>
      intro attempt delay le t _ hres
      cases hop : operation attempt with
      | ok v => rw [withRetryGo, hop] at hres ⊢; exact absurd hres (by simp)
      | err e =>
          cases htr : truthy e.retryable with
          | false =>
              by_cases h2 : 1 ≤ r
              · rw [withRetryGo, hop] at hres ⊢
                simp only [htr, h2] at hres ⊢
                simp at hres
                exact ⟨e, by simp [← hres], by simpa using hop⟩
              · have hr0 : r = 0 := by omega
                subst hr0
                rw [withRetryGo, hop] at hres ⊢
                simp only [htr] at hres ⊢
                simp [withRetryGo] at hres ⊢
                exact ⟨e, by simp [← hres], by simpa using hop⟩
          | true =>
              have h1 : ¬(truthy e.retryable = false ∧ 1 ≤ r) := by simp [htr]
              by_cases h2 : 1 ≤ r
              · rw [withRetryGo, hop] at hres ⊢
                simp only [if_neg h1, if_pos h2] at hres ⊢
                obtain ⟨e', ht, hsrc⟩ := ih (attempt + 1) (delay * 2) (some e) t h2 hres
                refine ⟨e', ht, ?_⟩
                have hpos := withRetryGo_invocations_pos operation (attempt + 1)
                  (delay * 2) (some e) r h2
                have hidx : attempt +
                    ((withRetryGo operation (attempt + 1) (delay * 2) (some e) r).invocations + 1) - 1 =
                    attempt + 1 +
                    (withRetryGo operation (attempt + 1) (delay * 2) (some e) r).invocations - 1 := by
                  omega
                rw [hidx]
                exact hsrc
              · have hr0 : r = 0 := by omega
                subst hr0
                rw [withRetryGo, hop] at hres ⊢
                simp only [if_neg h1] at hres ⊢
                simp [withRetryGo] at hres ⊢
                exact ⟨e, by simp [← hres], by simpa using hop⟩

/-- A loop entered with positive fuel whose current attempt succeeds:
return the value at once, one invocation, no sleep. -/
theorem withRetryGo_ok {α : Type} (operation : Nat → Outcome α)
    (attempt delay : Nat) (le : Option JSError) (r : Nat) (v : α)
    (hop : operation attempt = Outcome.ok v) (hr : 1 ≤ r) :
    withRetryGo operation attempt delay le r =
      { result := Except.ok v, invocations := 1, delays := [] } := by
  cases r with
  | zero => omega
  | succ r => simp [withRetryGo, hop]

/-- A loop with at least two iterations left whose current attempt fails
with a falsy `$retryable`: the `break` is taken, so one invocation, no
sleep, and the error is thrown. -/
theorem withRetryGo_break {α : Type} (operation : Nat → Outcome α)
    (attempt delay : Nat) (le : Option JSError) (r : Nat) (e : JSError)
    (hop : operation attempt = Outcome.err e) (htr : truthy e.retryable = false)
    (hr : 2 ≤ r) :
    withRetryGo operation attempt delay le r =
      { result := Except.error (Thrown.err e), invocations := 1, delays := [] } := by
  obtain ⟨r', rfl⟩ : ∃ r', r = r' + 1 := ⟨r - 1, by omega⟩
  have hr' : 1 ≤ r' := by omega
  simp [withRetryGo, hop, htr, hr']

/-- The final loop iteration when its attempt fails: the error is thrown
after that one invocation, with no sleep. -/
theorem withRetryGo_one_err {α : Type} (operation : Nat → Outcome α)
    (attempt delay : Nat) (le : Option JSError) (e : JSError)
    (hop : operation attempt = Outcome.err e) :
    withRetryGo operation attempt delay le 1 =
      { result := Except.error (Thrown.err e), invocations := 1, delays := [] } := by
  rw [withRetryGo_one, hop]

/-- Full characterization of a run whose first `k - 1` attempts fail with
truthy `$retryable` and whose attempt `k ≤ n` succeeds with `v`. -/
theorem withRetry_success_run {α : Type} (operation : Nat → Outcome α)
    (n k delay : Nat) (v : α) (hk1 : 1 ≤ k) (hkn : k ≤ n)
    (hprev : ∀ i, 1 ≤ i → i < k → ∃ e, operation i = Outcome.err e ∧
      truthy e.retryable = true)
    (hsucc : operation k = Outcome.ok v) :
    withRetry operation (n : Int) delay =
      { result := Except.ok v, invocations := k,
        delays := (List.range (k - 1)).map (fun i => delay * 2 ^ i) } := by
  obtain ⟨m, rfl⟩ : ∃ m, n = m + 1 := ⟨n - 1, by omega⟩
  rw [withRetry, Int.toNat_natCast]
  rw [withRetryGo_skip operation (k - 1) m 1 delay (by omega)
    (fun i hi => by
      obtain ⟨e, hopi, htri⟩ := hprev (i + 1) (by omega) (by omega)
      exact ⟨e, by rw [← hopi]; ring_nf, htri⟩)]
  have ha : 1 + (k - 1) = k := by omega
  rw [ha, withRetryGo_ok operation k (delay * 2 ^ (k - 1)) none (m + 1 - (k - 1))
    v hsucc (by omega)]
  simp [RunResult.mk.injEq]
  omega

/-- Full characterization of an exhaustion run: the first `n - 1`
attempts fail with truthy `$retryable` and attempt `n` fails with any
error `e` (its `$retryable` no longer matters on the last attempt); all
`n` attempts are consumed and `e` is thrown. -/
theorem withRetry_exhaust_run {α : Type} (operation : Nat → Outcome α)
    (n delay : Nat) (e : JSError) (h1 : 1 ≤ n)
    (hprev : ∀ i, 1 ≤ i → i < n → ∃ ei, operation i = Outcome.err ei ∧
      truthy ei.retryable = true)
    (hn : operation n = Outcome.err e) :
    withRetry operation (n : Int) delay =
      { result := Except.error (Thrown.err e), invocations := n,
        delays := (List.range (n - 1)).map (fun i => delay * 2 ^ i) } := by
  obtain ⟨m, rfl⟩ : ∃ m, n = m + 1 := ⟨n - 1, by omega⟩
  rw [withRetry, Int.toNat_natCast]
  rw [withRetryGo_skip operation m m 1 delay (by omega)
    (fun i hi => by
      obtain ⟨ei, hopi, htri⟩ := hprev (i + 1) (by omega) (by omega)
      exact ⟨ei, by rw [← hopi]; ring_nf, htri⟩)]
  have hf : m + 1 - m = 1 := by omega
  have ha : 1 + m = m + 1 := by omega
  rw [hf, ha, withRetryGo_one_err operation (m + 1) (delay * 2 ^ m) none e hn]
  simp [RunResult.mk.injEq]
  omega

/-- Full characterization of a run whose first `k - 1` attempts fail with
truthy `$retryable` and whose attempt `k < n` fails with falsy
`$retryable`: the fast-fail `break` throws that error after exactly `k`
invocations and `k - 1` sleeps. -/
theorem withRetry_fastFail_run {α : Type} (operation : Nat → Outcome α)
    (n k delay : Nat) (e : JSError) (hk1 : 1 ≤ k) (hkn : k < n)
    (hprev : ∀ i, 1 ≤ i → i < k → ∃ ei, operation i = Outcome.err ei ∧
      truthy ei.retryable = true)
    (hk : operation k = Outcome.err e) (hfalsy : truthy e.retryable = false) :
    withRetry operation (n : Int) delay =
      { result := Except.error (Thrown.err e), invocations := k,
        delays := (List.range (k - 1)).map (fun i => delay * 2 ^ i) } := by
  obtain ⟨m, rfl⟩ : ∃ m, n = m + 1 := ⟨n - 1, by omega⟩
  rw [withRetry, Int.toNat_natCast]
  rw [withRetryGo_skip operation (k - 1) m 1 delay (by omega)
    (fun i hi => by
      obtain ⟨ei, hopi, htri⟩ := hprev (i + 1) (by omega) (by omega)
      exact ⟨ei, by rw [← hopi]; ring_nf, htri⟩)]
  have ha : 1 + (k - 1) = k := by omega
  rw [ha, withRetryGo_break operation k (delay * 2 ^ (k - 1)) none (m + 1 - (k - 1))
    e hk hfalsy (by omega)]
  simp [RunResult.mk.injEq]
  omega

/-- The retry control flow (how many invocations happen and which delays
are slept) depends on the invocation outcomes only through
success-versus-failure and the truthiness of the failure's `$retryable`
property: operations agreeing in that sense produce identical invocation
counts and delay sequences. -/
theorem withRetryGo_decision_invariant {α : Type} (op₁ op₂ : Nat → Outcome α) :
    ∀ (r attempt delay : Nat) (le₁ le₂ : Option JSError),
      (∀ i, sameDecision (op₁ i) (op₂ i)) →
      (withRetryGo op₁ attempt delay le₁ r).invocations =
        (withRetryGo op₂ attempt delay le₂ r).invocations ∧
      (withRetryGo op₁ attempt delay le₁ r).delays =
        (withRetryGo op₂ attempt delay le₂ r).delays := by
  intro r
  induction r with
  | zero => intro attempt delay le₁ le₂ _; simp [withRetryGo]
  | succ r ih =>
      intro attempt delay le₁ le₂ hsame
      have hs := hsame attempt
      cases hop1 : op₁ attempt with
      | ok v =>
          cases hop2 : op₂ attempt with
          | ok w => simp [withRetryGo, hop1, hop2]
          | err e₂ =>
              rw [hop1, hop2] at hs
              exact absurd hs (by simp [sameDecision])
      | err e₁ =>
          cases hop2 : op₂ attempt with
          | ok w =>
              rw [hop1, hop2] at hs
              exact absurd hs (by simp [sameDecision])
          | err e₂ =>
              rw [hop1, hop2] at hs
              simp only [sameDecision] at hs
              cases htr1 : truthy e₁.retryable with
              | false =>
                  have htr2 : truthy e₂.retryable = false := by rw [← hs, htr1]
                  by_cases h2 : 1 ≤ r
                  · simp [withRetryGo, hop1, hop2, htr1, htr2, h2]
                  · have hr0 : r = 0 := by omega
                    subst hr0
                    simp [withRetryGo, hop1, hop2, htr1, htr2]
              | true =>
                  have htr2 : truthy e₂.retryable = true := by rw [← hs, htr1]
                  by_cases h2 : 1 ≤ r
                  · have hrec := ih (attempt + 1) (delay * 2) (some e₁) (some e₂) hsame
                    simp [withRetryGo, hop1, hop2, htr1, htr2, h2]
                    exact ⟨hrec.1, hrec.2⟩
                  · have hr0 : r = 0 := by omega
                    subst hr0
                    simp [withRetryGo, hop1, hop2, htr1, htr2]

/-- A concrete error whose `$retryable` property is the boolean `true`. -/
def retryableError : JSError :=
  { name := "Throttling", message := "rate exceeded",
    metadata := JSValue.obj 0, retryable := JSValue.bool true }

/-- A concrete error with no `$retryable` property (reads as
`undefined`, hence falsy). -/
def plainError : JSError :=
  { name := "NoSuchBucket", message := "bucket missing",
    metadata := JSValue.obj 1, retryable := JSValue.undef }

/-- A concrete operation: a retryable failure on attempt 1, then success
with `42` from attempt 2 on. -/
def opFlaky : Nat → Outcome Nat :=
  fun i => if i ≤ 1 then Outcome.err retryableError else Outcome.ok 42

/-- A concrete operation failing on every attempt with `retryableError`. -/
def opAlwaysRetryable : Nat → Outcome Nat :=
  fun _ => Outcome.err retryableError

/-- A concrete operation failing on every attempt with `plainError`. -/
def opAlwaysPlain : Nat → Outcome Nat :=
  fun _ => Outcome.err plainError

/-- A concrete operation: a retryable failure on attempt 1, then
`plainError` from attempt 2 on. -/
def opPlainAfterRetryable : Nat → Outcome Nat :=
  fun i => if i ≤ 1 then Outcome.err retryableError else Outcome.err plainError

/-- C1: for every operation and every `maxAttempts = n ≥ 1`, if the
operation succeeds on attempt `k ≤ n` (all earlier attempts having
failed with truthy `$retryable`, which is what it takes to reach attempt
`k`), then `withRetry` returns exactly that attempt's resolved value,
unmodified, the operation is invoked exactly `k` times, and only the
`k - 1` inter-attempt delays are performed — none after the success. -/
theorem claim_C1_success_on_attempt_k {α : Type} (operation : Nat → Outcome α)
    (n k delay : Nat) (v : α) (hk1 : 1 ≤ k) (hkn : k ≤ n)
    (hprev : ∀ i, 1 ≤ i → i < k → ∃ e, operation i = Outcome.err e ∧
      truthy e.retryable = true)
    (hsucc : operation k = Outcome.ok v) :
    (withRetry operation (n : Int) delay).result = Except.ok v ∧
    (withRetry operation (n : Int) delay).invocations = k ∧
    (withRetry operation (n : Int) delay).delays.length = k - 1 := by
  rw [withRetry_success_run operation n k delay v hk1 hkn hprev hsucc]
  simp

/-- Witness for C1: `opFlaky` with `n = 3`, succeeding on attempt
`k = 2` with value `42`, after one retryable failure. -/
theorem claim_C1_witness :
    (withRetry opFlaky ((3 : Nat) : Int) 7).result = Except.ok 42 ∧
    (withRetry opFlaky ((3 : Nat) : Int) 7).invocations = 2 ∧
    (withRetry opFlaky ((3 : Nat) : Int) 7).delays.length = 2 - 1 :=
  claim_C1_success_on_attempt_k opFlaky 3 2 7 42 (by decide) (by decide)
    (fun i h1 h2 => ⟨retryableError, by
      have hi : i = 1 := by omega
      subst hi
      exact ⟨rfl, by decide⟩⟩)
    rfl

/-- C2: for every `maxAttempts = n ≥ 1`, an operation failing on every
invocation with truthy `$retryable` (attempt `i` producing error
`es i`) is invoked exactly `n` times and the call fails with the error
produced by the `n`-th, final, invocation. -/
theorem claim_C2_exhaustion_runs_n_attempts {α : Type} (operation : Nat → Outcome α)
    (n delay : Nat) (es : Nat → JSError) (h1 : 1 ≤ n)
    (hfail : ∀ i, operation i = Outcome.err (es i))
    (htruthy : ∀ i, truthy (es i).retryable = true) :
    (withRetry operation (n : Int) delay).invocations = n ∧
    (withRetry operation (n : Int) delay).result =
      Except.error (Thrown.err (es n)) := by
  rw [withRetry_exhaust_run operation n delay (es n) h1
    (fun i _ _ => ⟨es i, hfail i, htruthy i⟩) (hfail n)]
  simp

/-- Witness for C2: `opAlwaysRetryable` with `n = 3`: three invocations,
failing with the third invocation's error. -/
theorem claim_C2_witness :
    (withRetry opAlwaysRetryable ((3 : Nat) : Int) 10).invocations = 3 ∧
    (withRetry opAlwaysRetryable ((3 : Nat) : Int) 10).result =
      Except.error (Thrown.err retryableError) :=
  claim_C2_exhaustion_runs_n_attempts opAlwaysRetryable 3 10
    (fun _ => retryableError) (by decide) (fun _ => rfl) (fun _ => rfl)

/-- C3: for `maxAttempts = n`, if attempt `k < n` fails with falsy
`$retryable` (all earlier attempts having failed with truthy
`$retryable`), `withRetry` performs no further invocation and no further
delay, and the call fails with that error: exactly `k` invocations and
`k - 1` delays (fast-fail). -/
theorem claim_C3_fast_fail {α : Type} (operation : Nat → Outcome α)
    (n k delay : Nat) (e : JSError) (hk1 : 1 ≤ k) (hkn : k < n)
    (hprev : ∀ i, 1 ≤ i → i < k → ∃ ei, operation i = Outcome.err ei ∧
      truthy ei.retryable = true)
    (hk : operation k = Outcome.err e) (hfalsy : truthy e.retryable = false) :
    (withRetry operation (n : Int) delay).result =
      Except.error (Thrown.err e) ∧
    (withRetry operation (n : Int) delay).invocations = k ∧
    (withRetry operation (n : Int) delay).delays.length = k - 1 := by
  rw [withRetry_fastFail_run operation n k delay e hk1 hkn hprev hk hfalsy]
  simp

/-- Witness for C3: `opAlwaysPlain` with `n = 3` fast-fails on attempt
`k = 1`: a single invocation, no delay, failing with `plainError`. -/
theorem claim_C3_witness :
    (withRetry opAlwaysPlain ((3 : Nat) : Int) 10).result =
      Except.error (Thrown.err plainError) ∧
    (withRetry opAlwaysPlain ((3 : Nat) : Int) 10).invocations = 1 ∧
    (withRetry opAlwaysPlain ((3 : Nat) : Int) 10).delays.length = 1 - 1 :=
  claim_C3_fast_fail opAlwaysPlain 3 1 10 plainError (by decide) (by decide)
    (fun i h1 h2 => absurd h2 (by omega)) rfl (by decide)

/-- C4: in every execution with initial delay `d`, the performed delays
are exactly `d * 2 ^ 0, d * 2 ^ 1, ...` in order (the delay slept
before attempt `k ≥ 2`, stored at position `k - 2`, is `d * 2 ^ (k - 2)`
— so `d, 2d, 4d` before attempts 2, 3, 4), and there is one delay fewer
than there are invocations — in particular no delay precedes the first
attempt and none follows the final one. -/
theorem claim_C4_exponential_backoff {α : Type} (operation : Nat → Outcome α)
    (maxRetries : Int) (delay : Nat) :
    (withRetry operation maxRetries delay).delays =
      (List.range (withRetry operation maxRetries delay).delays.length).map
        (fun j => delay * 2 ^ j) ∧
    ((withRetry operation maxRetries delay).invocations =
        (withRetry operation maxRetries delay).delays.length + 1 ∨
      ((withRetry operation maxRetries delay).invocations = 0 ∧
       (withRetry operation maxRetries delay).delays = [])) :=
  ⟨withRetryGo_delays_geom operation maxRetries.toNat 1 delay none,
   withRetryGo_delay_count operation maxRetries.toNat 1 delay none⟩

/-- C5: a single `withRetry` execution invokes the operation at most
`n` times, on every path (success, fast-fail or exhaustion), for every
operation and every `n`. -/
theorem claim_C5_at_most_n_invocations {α : Type} (operation : Nat → Outcome α)
    (n : Nat) (delay : Nat) :
    (withRetry operation (n : Int) delay).invocations ≤ n := by
  have h := withRetryGo_invocations_le operation ((n : Int)).toNat 1 delay none
  rw [Int.toNat_natCast] at h
  exact h

/-- C6: when `maxAttempts = 1` the operation is invoked exactly once,
whatever its `$retryable` flag, no delay is ever performed, and the
single invocation's outcome is surfaced directly: its value on success,
its error on failure. -/
theorem claim_C6_single_attempt {α : Type} (operation : Nat → Outcome α)
    (delay : Nat) :
    (withRetry operation (1 : Int) delay).invocations = 1 ∧
    (withRetry operation (1 : Int) delay).delays = [] ∧
    (withRetry operation (1 : Int) delay).result =
      (match operation 1 with
       | Outcome.ok v => Except.ok v
       | Outcome.err e => Except.error (Thrown.err e)) := by
  have h : withRetry operation (1 : Int) delay =
      withRetryGo operation 1 delay none 1 := rfl
  rw [h, withRetryGo_one]
  cases hop : operation 1 <;> simp [hop]

/-- C7: within the contract domain `maxAttempts = n ≥ 1`, whenever the
call fails, the thrown value is exactly the error object produced by the
most recent invocation of the operation (invocation number
`invocations`), never `undefined` and never an aggregate: `withRetry`
introduces no error of its own. -/
theorem claim_C7_error_propagated_unchanged {α : Type} (operation : Nat → Outcome α)
    (n delay : Nat) (t : Thrown) (h1 : 1 ≤ n)
    (hthrew : (withRetry operation (n : Int) delay).result = Except.error t) :
    ∃ e, t = Thrown.err e ∧
      operation (withRetry operation (n : Int) delay).invocations =
        Outcome.err e := by
  rw [withRetry, Int.toNat_natCast] at hthrew ⊢
  obtain ⟨e, ht, hsrc⟩ :=
    withRetryGo_error_src operation n 1 delay none t h1 hthrew
  refine ⟨e, ht, ?_⟩
  have hpos := withRetryGo_invocations_pos operation 1 delay none n h1
  have hidx : 1 + (withRetryGo operation 1 delay none n).invocations - 1 =
      (withRetryGo operation 1 delay none n).invocations := by omega
  rw [hidx] at hsrc
  exact hsrc

/-- Witness for C7: `opAlwaysPlain` with `n = 1` throws exactly the
error object of its single invocation. -/
theorem claim_C7_witness :
    ∃ e, Thrown.err plainError = Thrown.err e ∧
      opAlwaysPlain (withRetry opAlwaysPlain ((1 : Nat) : Int) 9).invocations =
        Outcome.err e :=
  claim_C7_error_propagated_unchanged opAlwaysPlain 1 9
    (Thrown.err plainError) (by decide) rfl

/-- C8: a fast-fail run (attempt `k < n₁` fails with falsy `$retryable`
after truthy-retryable failures) and an exhaustion run (all `n₂`
attempts consumed, the last failing with the same error object `e`)
yield the same caller-observable outcome: both calls fail with `e`; the
terminating path affects only when retries stop, not the reported
error. -/
theorem claim_C8_fastfail_exhaustion_same_outcome {α : Type}
    (op₁ op₂ : Nat → Outcome α) (n₁ k n₂ d₁ d₂ : Nat) (e : JSError)
    (hk1 : 1 ≤ k) (hkn : k < n₁)
    (hprev₁ : ∀ i, 1 ≤ i → i < k → ∃ ei, op₁ i = Outcome.err ei ∧
      truthy ei.retryable = true)
    (hk : op₁ k = Outcome.err e) (hfalsy : truthy e.retryable = false)
    (h2 : 1 ≤ n₂)
    (hprev₂ : ∀ i, 1 ≤ i → i < n₂ → ∃ ei, op₂ i = Outcome.err ei ∧
      truthy ei.retryable = true)
    (hn₂ : op₂ n₂ = Outcome.err e) :
    (withRetry op₁ (n₁ : Int) d₁).result =
    (withRetry op₂ (n₂ : Int) d₂).result := by
  rw [withRetry_fastFail_run op₁ n₁ k d₁ e hk1 hkn hprev₁ hk hfalsy,
      withRetry_exhaust_run op₂ n₂ d₂ e h2 hprev₂ hn₂]

/-- Witness for C8: `opAlwaysPlain` fast-failing on attempt 1 of 3 and
`opPlainAfterRetryable` exhausting 2 attempts report the same thrown
error. -/
theorem claim_C8_witness :
    (withRetry opAlwaysPlain ((3 : Nat) : Int) 10).result =
    (withRetry opPlainAfterRetryable ((2 : Nat) : Int) 25).result :=
  claim_C8_fastfail_exhaustion_same_outcome opAlwaysPlain opPlainAfterRetryable
    3 1 2 10 25 plainError (by decide) (by decide)
    (fun i h1 h2 => absurd h2 (by omega)) rfl (by decide) (by decide)
    (fun i h1 h2 => ⟨retryableError, by
      have hi : i = 1 := by omega
      subst hi
      exact ⟨rfl, by decide⟩⟩)
    rfl

/-- C9: for every `maxRetries ≤ 0` the loop body never runs: the
operation is invoked zero times, no delay is performed, and the call
fails by throwing the JS `undefined` value (the uninitialized
`lastError`), not an error object. -/
theorem claim_C9_nonpositive_maxRetries {α : Type} (operation : Nat → Outcome α)
    (maxRetries : Int) (delay : Nat) (h : maxRetries ≤ 0) :
    (withRetry operation maxRetries delay).result =
      Except.error Thrown.undef ∧
    (withRetry operation maxRetries delay).invocations = 0 ∧
    (withRetry operation maxRetries delay).delays = [] := by
  have h0 : maxRetries.toNat = 0 := by omega
  rw [withRetry, h0]
  simp [withRetryGo]

/-- Witness for C9: `maxRetries = -2` gives zero invocations and a
thrown `undefined`. -/
theorem claim_C9_witness :
    (withRetry opAlwaysRetryable (-2 : Int) 5).result =
      Except.error Thrown.undef ∧
    (withRetry opAlwaysRetryable (-2 : Int) 5).invocations = 0 ∧
    (withRetry opAlwaysRetryable (-2 : Int) 5).delays = [] :=
  claim_C9_nonpositive_maxRetries opAlwaysRetryable (-2) 5 (by decide)

/-- C10: the retry decision reads `$retryable` by JS truthiness and by
nothing else.  (i) Every value in the falsy table — absent/`undefined`,
`null`, `false`, `0`, `""` — is falsy and e.g. the boolean `true` is
truthy.  (ii) When attempts remain (`n ≥ 2`), a first-attempt error with
falsy `$retryable` fast-fails the whole call after that one invocation,
while any truthy `$retryable` (not only the boolean `true`) causes a
retry, i.e. at least a second invocation.  (iii) No other part of the
outcomes influences the control flow: operations whose outcomes agree on
success-versus-failure and on the truthiness of `$retryable` produce
identical invocation counts and identical delay sequences. -/
theorem claim_C10_truthiness_decision :
    (truthy JSValue.undef = false ∧ truthy JSValue.null = false ∧
     truthy (JSValue.bool false) = false ∧ truthy (JSValue.num 0) = false ∧
     truthy (JSValue.str "") = false ∧ truthy (JSValue.bool true) = true ∧
     truthy (JSValue.num 1) = true ∧ truthy (JSValue.str "yes") = true ∧
     truthy (JSValue.obj 0) = true) ∧
    (∀ (α : Type) (operation : Nat → Outcome α) (n delay : Nat) (e : JSError),
      2 ≤ n → operation 1 = Outcome.err e →
      (truthy e.retryable = false →
        withRetry operation (n : Int) delay =
          { result := Except.error (Thrown.err e), invocations := 1,
            delays := [] }) ∧
      (truthy e.retryable = true →
        2 ≤ (withRetry operation (n : Int) delay).invocations)) ∧
    (∀ (α : Type) (op₁ op₂ : Nat → Outcome α) (maxRetries : Int) (delay : Nat),
      (∀ i, sameDecision (op₁ i) (op₂ i)) →
      (withRetry op₁ maxRetries delay).invocations =
        (withRetry op₂ maxRetries delay).invocations ∧
      (withRetry op₁ maxRetries delay).delays =
        (withRetry op₂ maxRetries delay).delays) := by
  refine ⟨by decide, ?_, ?_⟩
  · intro α operation n delay e hn hop
    constructor
    · intro hfalsy
      have h := withRetry_fastFail_run operation n 1 delay e (by omega) (by omega)
        (fun i h1 h2 => absurd h2 (by omega)) hop hfalsy
      simpa using h
    · intro htruthy
      obtain ⟨m, rfl⟩ : ∃ m, n = m + 2 := ⟨n - 2, by omega⟩
      rw [withRetry, Int.toNat_natCast]
      have hm : m + 2 = (m + 1) + 1 := rfl
      rw [hm, withRetryGo_skip operation 1 (m + 1) 1 delay (by omega)
        (fun i hi => by
          have hi0 : i = 0 := by omega
          subst hi0
          exact ⟨e, by simpa using hop, htruthy⟩)]
      have hpos := withRetryGo_invocations_pos operation (1 + 1) (delay * 2 ^ 1)
        none ((m + 1) + 1 - 1) (by omega)
      simp only []
      omega
  · intro α op₁ op₂ maxRetries delay hsame
    exact withRetryGo_decision_invariant op₁ op₂ maxRetries.toNat 1 delay
      none none hsame

/-- Witness for C10: with attempts remaining (`n = 3`), the falsy
(absent) `$retryable` of `plainError` fast-fails after one invocation,
while the truthy one of `retryableError` leads to a second invocation;
and `opAlwaysPlain` agrees decision-wise with itself. -/
theorem claim_C10_witness :
    (withRetry opAlwaysPlain ((3 : Nat) : Int) 5 =
      { result := Except.error (Thrown.err plainError), invocations := 1,
        delays := [] }) ∧
    2 ≤ (withRetry opAlwaysRetryable ((3 : Nat) : Int) 5).invocations :=
  ⟨(claim_C10_truthiness_decision.2.1 Nat opAlwaysPlain 3 5 plainError
      (by decide) rfl).1 (by decide),
   (claim_C10_truthiness_decision.2.1 Nat opAlwaysRetryable 3 5 retryableError
      (by decide) rfl).2 (by decide)⟩
